/-
Verification of the draft-lifecycle and pattern-detection core of the
`faytuks_engine.py` content engine.

The Python source is shallowly embedded:
  * JSON values are the inductive `JsonVal`; Python dicts (which preserve
    insertion order) are association lists `List (String × α)`, with
    `lookupKV` / `setKV` modelling `d.get(k)` / `d[k] = v`.
  * A draft directory is a list of (filename, parsed-JSON-object) pairs in
    which filenames are unique; `fsWrite` models `open(f,'w')` + `json.dump`
    (overwriting an existing file of the same name), `fsRemove` models
    `unlink`, and a rename is a remove from the source directory plus a
    write to the destination.  `json.dump`/`json.load` round-trip JSON
    trees, so files are modelled as holding the JSON value itself.
  * Fallible Python code (KeyError / TypeError / IndexError paths) returns
    `Except String _` or `Option _`.
  * `datetime.now()` is an input: operations that read the clock take the
    formatted timestamp string (or integer epoch time) as a parameter.
  * Python's stable `list.sort(key=..., reverse=True)` is modelled by
    Mathlib's stable `List.insertionSort` with the "greater-or-equal key"
    relation.
-/
import Mathlib

set_option maxRecDepth 10000

namespace Faytuks

/-! ### Association lists: the embedding of Python dicts -/

/-- `d.get(k)`: first binding of `k`, if any (Python dicts have unique keys;
on lists with duplicate keys this returns the first, which is what the
directory model needs for glob iteration as well). -/
def lookupKV {α : Type} (k : String) : List (String × α) → Option α
  | [] => none
  | (k', v) :: rest => if k' = k then some v else lookupKV k rest

/-- `d[k] = v`: replace the value at `k` in place (keeping its position,
as Python dicts do), or append the binding if `k` is absent. -/
def setKV {α : Type} (k : String) (v : α) : List (String × α) → List (String × α)
  | [] => [(k, v)]
  | (k', v') :: rest => if k' = k then (k', v) :: rest else (k', v') :: setKV k v rest

/-- Remove the first binding of `k` (models `unlink` of a file). -/
def removeKV {α : Type} (k : String) : List (String × α) → List (String × α)
  | [] => []
  | (k', v') :: rest => if k' = k then rest else (k', v') :: removeKV k rest

/-- Number of bindings of `k`. -/
def countKV {α : Type} (k : String) (l : List (String × α)) : Nat :=
  l.countP (fun e => e.1 == k)

/-! ### JSON values -/

inductive JsonVal : Type where
  | null : JsonVal
  | bool (b : Bool) : JsonVal
  | num (n : Int) : JsonVal
  | str (s : String) : JsonVal
  | arr (xs : List JsonVal) : JsonVal
  | obj (fields : List (String × JsonVal)) : JsonVal

/-- A parsed JSON object (a Python dict). -/
abbrev JsonObj := List (String × JsonVal)

/-! ### Substring matching

Python's `needle in hay` on `str` is substring containment; `str.lower()`
on the ASCII strings of the trigger tables is `String.toLower`. -/

/-- `strHas needle hay`: `needle in hay` on the underlying character lists. -/
def strHas (needle : List Char) : List Char → Bool
  | [] => needle.isEmpty
  | c :: rest => needle.isPrefixOf (c :: rest) || strHas needle rest

/-- Python substring test `needle in hay` on strings. -/
def strIn (needle hay : String) : Bool := strHas needle.toList hay.toList

/-- Python `s.lower()` on the ASCII strings of the trigger tables
(`Char.toLower`, like `str.lower`, is the identity outside uppercase
letters; the two agree on ASCII). -/
def pyLower (s : String) : List Char := s.toList.map Char.toLower

/-- `fnmatch`-style match of filename `fname` against the glob pattern
`f"*{pat}*.json"` used by `DraftManager`: the name decomposes as
`a ++ pat ++ b ++ ".json"`, i.e. it ends in `".json"` and contains `pat`
before that extension. -/
def globMatch (pat fname : String) : Bool :=
  let f := fname.toList
  List.isSuffixOf (String.toList ".json") f && strHas pat.toList (f.take (f.length - 5))

/-! ### PatternMatcher (`PATTERN_TRIGGERS`, `auto_detect_pattern`) -/

/-- `PATTERN_TRIGGERS` from the source, in dict insertion order. -/
def PATTERN_TRIGGERS : List (String × List String) :=
  [("fire_parallel", ["fire", "burn", "arson", "flames", "Cinema Rex", "Rasht", "bazaar", "trapped"]),
   ("counter_revolution", ["revolution", "1979", "hijacked", "Khomeini", "stole", "1978", "grandchildren"]),
   ("western_betrayal", ["West", "US", "Europe", "silent", "Guadeloupe", "Carter", "abandoned", "betrayal"]),
   ("iraq_contrast", ["Iraq", "invasion", "regime change", "troops", "Afghanistan", "Vietnam", "quagmire"]),
   ("ethnic_unity", ["Kurd", "Azeri", "Baluch", "Arab", "fragment", "unity", "ethnic", "Yugoslavia"]),
   ("massacre_escalation", ["killed", "massacre", "death toll", "1988", "executed", "bodies", "hospital"]),
   ("great_power_game", ["China", "Russia", "Turkmenchay", "Silk Road", "partner", "deal"]),
   ("constitutional_memory", ["1906", "constitution", "Mossadegh", "democratic", "parliament", "Majles"]),
   ("geography_fortress", ["geography", "mountains", "invasion", "fortress", "Zagros", "terrain"]),
   ("diaspora_return", ["diaspora", "return", "exile", "abroad", "4 million", "educated"])]

/-- An entry of `auto_detect_pattern`'s result: (pattern, score, matched keywords). -/
abbrev DetectEntry := String × ℚ × List String

/-- The comparison under which Python's stable
`results.sort(key=lambda x: x[1], reverse=True)` leaves the list sorted:
the score of the left entry is at least the score of the right one. -/
def scoreGE (a b : DetectEntry) : Prop := b.2.1 ≤ a.2.1

instance : DecidableRel scoreGE := fun a b => inferInstanceAs (Decidable (b.2.1 ≤ a.2.1))

instance : IsTotal DetectEntry scoreGE := ⟨fun a b => le_total b.2.1 a.2.1⟩

instance : IsTrans DetectEntry scoreGE := ⟨fun _ _ _ h h' => le_trans h' h⟩

/-- The `results` list of `auto_detect_pattern` before sorting: for each
pattern in table order, the triggers matching the lowercased text; patterns
with no match are dropped; the score is `len(matched) / len(triggers)`. -/
def rawResults (text : String) : List DetectEntry :=
  PATTERN_TRIGGERS.filterMap (fun pt =>
    let matched := pt.2.filter (fun t => strHas (pyLower t) (pyLower text))
    if matched.isEmpty then none
    else some (pt.1, (matched.length : ℚ) / (pt.2.length : ℚ), matched))

/-- `auto_detect_pattern`: the match results sorted by score descending with
a stable sort (Python `list.sort` is stable; `List.insertionSort` is its
stable counterpart). -/
def auto_detect_pattern (text : String) : List DetectEntry :=
  (rawResults text).insertionSort scoreGE

/-- `TweetEnricher.detect_pattern`: the top entry's pattern, if any. -/
def detect_pattern (text : String) : Option String :=
  match auto_detect_pattern text with
  | [] => none
  | e :: _ => some e.1

/-! ### DraftManager

A directory is a list of `(filename, parsed JSON object)` pairs; the three
lifecycle directories form the state.  `findMatch` models the `for f in
dir.glob(f"*{id}*.json")` loops, which act on the first matching file. -/

/-- A draft directory: filenames with their JSON contents. -/
abbrev DraftDir := List (String × JsonObj)

structure DraftState where
  pending : DraftDir
  approved : DraftDir
  posted : DraftDir

/-- The empty draft store (all three directories freshly created). -/
def emptyState : DraftState := ⟨[], [], []⟩

/-- First file of the directory whose name matches the glob `*{pat}*.json`. -/
def findMatch (pat : String) : DraftDir → Option (String × JsonObj)
  | [] => none
  | (n, c) :: rest => if globMatch pat n then some (n, c) else findMatch pat rest

/-- `open(name,'w')` + `json.dump`: overwrite the file if present (keeping
directory-listing position), create it otherwise. -/
def fsWrite (name : String) (content : JsonObj) : DraftDir → DraftDir := setKV name content

/-- `unlink`: remove the (unique) file of that name. -/
def fsRemove (name : String) : DraftDir → DraftDir := removeKV name

/-- Filename `f"draft_{draft_id}.json"` used by `save_draft`. -/
def draftName (draft_id : String) : String := "draft_" ++ draft_id ++ ".json"

/-- The draft dict built by `DraftManager.save_draft`.  `t` is the
second-granularity timestamp read from the clock; it provides both the
`id` (`strftime("%Y%m%d_%H%M%S")`) and, up to display format, the
`created_at` (`isoformat()` of the same instant), so both are modelled by
the same string. -/
def mkDraft (t english persian pattern : String) (media hashtags sources : List String) :
    JsonObj :=
  [("id", .str t), ("created_at", .str t), ("status", .str "pending"),
   ("pattern", .str pattern), ("english", .str english), ("persian", .str persian),
   ("media", .arr (media.map .str)), ("hashtags", .arr (hashtags.map .str)),
   ("sources", .arr (sources.map .str)), ("posted_at", .null), ("tweet_id", .null)]

/-- `DraftManager.save_draft`: write the new draft into `pending/`.
Returns the path (as its filename) and the new state. -/
def save_draft (t english persian pattern : String)
    (media hashtags sources : List String) (S : DraftState) : String × DraftState :=
  let rec0 := mkDraft t english persian pattern media hashtags sources
  (draftName t, { S with pending := fsWrite (draftName t) rec0 S.pending })

/-- `created_at` sort key of `list_pending` (`d.get("created_at", "")`;
the stored value is a string for every record this system writes). -/
def createdAtKey (d : JsonObj) : String :=
  match lookupKV "created_at" d with
  | some (.str s) => s
  | _ => ""

/-- Comparison under which `sorted(drafts, key=..., reverse=True)` leaves
the list sorted. -/
def createdGE (a b : JsonObj) : Prop := createdAtKey b ≤ createdAtKey a

instance : DecidableRel createdGE :=
  fun a b => inferInstanceAs (Decidable (createdAtKey b ≤ createdAtKey a))

/-- `DraftManager.list_pending`: all pending drafts, sorted by creation
timestamp descending (stable sort over the directory listing). -/
def list_pending (S : DraftState) : List JsonObj :=
  (S.pending.map Prod.snd).insertionSort createdGE

/-- `DraftManager.approve_draft`: `rename` the first pending file matching
the glob into `approved/` and return `True`; `False` when nothing matches. -/
def approve_draft (draft_id : String) (S : DraftState) : Bool × DraftState :=
  match findMatch draft_id S.pending with
  | none => (false, S)
  | some (n, c) =>
      (true, { S with pending := fsRemove n S.pending, approved := fsWrite n c S.approved })

/-- The JSON value stored for the `tweet_id` argument (`None` → `null`). -/
def tidVal : Option String → JsonVal
  | some s => .str s
  | none => .null

/-- The record rewritten by `mark_posted`: `draft["status"] = "posted"`,
`draft["posted_at"] = now`, `draft["tweet_id"] = tweet_id`. -/
def postedRecord (c : JsonObj) (tweet_id : Option String) (t : String) : JsonObj :=
  setKV "tweet_id" (tidVal tweet_id)
    (setKV "posted_at" (.str t) (setKV "status" (.str "posted") c))

/-- `DraftManager.mark_posted`: rewrite the first approved file matching the
glob with `status`/`posted_at`/`tweet_id` updated, write it into `posted/`,
unlink it from `approved/`, and return `True`; `False` when nothing
matches.  `t` is `datetime.now().isoformat()`. -/
def mark_posted (draft_id : String) (tweet_id : Option String) (t : String)
    (S : DraftState) : Bool × DraftState :=
  match findMatch draft_id S.approved with
  | none => (false, S)
  | some (n, c) =>
      (true, ⟨S.pending, fsRemove n S.approved,
              fsWrite n (postedRecord c tweet_id t) S.posted⟩)

/-- The CLI `--reject` handler: for each of `pending/` and `approved/`,
unlink the first file matching the glob (the `break` only leaves the inner
loop, so one file per directory can be deleted); reports whether anything
was deleted.  `posted/` is never touched. -/
def reject_draft (draft_id : String) (S : DraftState) : Bool × DraftState :=
  let p := findMatch draft_id S.pending
  let a := findMatch draft_id S.approved
  (p.isSome || a.isSome,
   { S with
      pending := match p with | some (n, _) => fsRemove n S.pending | none => S.pending,
      approved := match a with | some (n, _) => fsRemove n S.approved | none => S.approved })

/-! ### TweetEnricher (`get_historical_context`, `enrich_draft`)

Functions that can raise in Python (`.lower()` on a non-string field,
`.get` on an unhashable key, `.get('name')` on a non-dict era) return
`Option`; `none` is "an exception escaped". -/

/-- The `pattern_facts` table of `get_historical_context`. -/
def pattern_facts : List (String × List String) :=
  [("fire_parallel", ["Cinema Rex", "Rasht", "arson"]),
   ("massacre_escalation", ["1988", "2019", "Bloody November", "death toll"]),
   ("counter_revolution", ["1979", "Khomeini", "hijacked"]),
   ("western_betrayal", ["Guadeloupe", "Carter", "1979"]),
   ("constitutional_memory", ["1906", "Mossadegh", "constitutional"]),
   ("ethnic_unity", ["Khuzestan", "Azerbaijan", "unity"]),
   ("great_power_game", ["Turkmenchay", "China", "Russia"]),
   ("iraq_contrast", ["Iraq", "2003", "Afghanistan"]),
   ("diaspora_return", ["diaspora", "exile", "4 million"])]

/-- The `era_mapping` table of `get_historical_context`. -/
def era_mapping : List (String × String) :=
  [("fire_parallel", "1978_revolution"),
   ("counter_revolution", "islamic_republic_1979"),
   ("constitutional_memory", "constitutional_1906"),
   ("massacre_escalation", "uprisings_2019_2022")]

/-- `pattern_facts.get(pattern, [])`.  A string key is looked up; any other
hashable JSON value misses every string key; an unhashable value (list or
dict) raises `TypeError`. -/
def patternFactKws (p : JsonVal) : Option (List String) :=
  match p with
  | .str s => some ((lookupKV s pattern_facts).getD [])
  | .arr _ => none
  | .obj _ => none
  | _ => some []

/-- `eras.get(era_mapping[pattern]) if pattern in era_mapping else None`. -/
def eraFor (p : JsonVal) (eras : List (String × JsonVal)) : Option (Option JsonVal) :=
  match p with
  | .str s =>
      some (match lookupKV s era_mapping with
            | some k => lookupKV k eras
            | none => none)
  | .arr _ => none
  | .obj _ => none
  | _ => some none

/-- `fact.get("fact", "").lower()`: lowercased text of a fact record;
`none` when the field holds a non-string (`AttributeError`). -/
def factText (f : JsonObj) : Option (List Char) :=
  match lookupKV "fact" f with
  | none => some []
  | some (.str s) => some (pyLower s)
  | some _ => none

/-- The `relevant_facts` loop of `get_historical_context`: facts whose text
contains any of the pattern's keywords, in original document order. -/
def relevantFacts (kws : List String) : List JsonObj → Option (List JsonObj)
  | [] => some []
  | f :: fs =>
      match factText f with
      | none => none
      | some txt =>
          match relevantFacts kws fs with
          | none => none
          | some rest =>
              some (if kws.any (fun kw => strHas (pyLower kw) txt) then f :: rest else rest)

/-- The dict returned by `get_historical_context`. -/
structure HistCtx where
  facts : List JsonObj
  era : Option JsonVal
  pattern : JsonVal

/-- `TweetEnricher.get_historical_context`, parameterised by the knowledge
base's facts list and `history["eras"]` dict. -/
def get_historical_context (facts : List JsonObj) (eras : List (String × JsonVal))
    (p : JsonVal) : Option HistCtx :=
  match patternFactKws p with
  | none => none
  | some kws =>
      match relevantFacts kws facts with
      | none => none
      | some rel =>
          match eraFor p eras with
          | none => none
          | some era => some ⟨rel.take 3, era, p⟩

/-- Python truthiness of a JSON value. -/
def jFalsy : JsonVal → Bool
  | .null => true
  | .bool b => !b
  | .num n => n == 0
  | .str s => s.isEmpty
  | .arr xs => xs.isEmpty
  | .obj fs => fs.isEmpty

/-- `TweetEnricher.enrich_draft` (without an LLM client: `claude_client is
None`, so no translation and no supplemental tweet).  Detects a pattern on
the draft's `english` text; when detection fails, falls back to
`draft.get('pattern', 'massacre_escalation')`; merges `detected_pattern`
and `historical_context` into the draft dict. -/
def enrich_draft (draft : JsonObj) (facts : List JsonObj)
    (eras : List (String × JsonVal)) : Option JsonObj :=
  match (match lookupKV "english" draft with
         | none => some ""
         | some (.str s) => some s
         | some _ => none) with
  | none => none
  | some text =>
      let pattern : JsonVal :=
        match detect_pattern text with
        | some p => .str p
        | none => (lookupKV "pattern" draft).getD (.str "massacre_escalation")
      match get_historical_context facts eras pattern with
      | none => none
      | some ctx =>
          let eraName : Option JsonVal :=
            match ctx.era with
            | none => some .null
            | some v =>
                if jFalsy v then some .null
                else match v with
                     | .obj o => some ((lookupKV "name" o).getD .null)
                     | _ => none
          match eraName with
          | none => none
          | some en =>
              some (setKV "historical_context"
                (.obj [("facts_count", .num ctx.facts.length), ("era", en)])
                (setKV "detected_pattern" pattern draft))

/-! ### KnowledgeBase (`get_anniversary_for_date`) -/

/-- The `month_names` list of `get_anniversary_for_date` (index 0 unused). -/
def month_names : List String :=
  ["", "january", "february", "march", "april", "may", "june",
   "july", "august", "september", "october", "november", "december"]

/-- Python list indexing, including negative indices and `IndexError`. -/
def pyIndex (xs : List String) (i : Int) : Except String String :=
  let j : Int := if i < 0 then (xs.length : Int) + i else i
  if 0 ≤ j then
    match xs.get? j.toNat with
    | some x => .ok x
    | none => .error "IndexError"
  else .error "IndexError"

/-- `f"{n:02d}"`: decimal rendering left-padded with `0` to width 2. -/
def pad2 (n : Int) : String :=
  let s := toString n
  if s.length < 2 then "0" ++ s else s

/-- The `f"{month:02d}-{day:02d}"` date key. -/
def dateKey (month day : Int) : String := pad2 month ++ "-" ++ pad2 day

/-- The filter loop of `get_anniversary_for_date`: events whose `date`
equals the key or starts with it.  Errors model `AttributeError` on
non-dict events or non-string dates. -/
def annivMatches (ds : String) : List JsonVal → Except String (List JsonVal)
  | [] => .ok []
  | e :: rest =>
      match e with
      | .obj o =>
          match (match lookupKV "date" o with
                 | none => Except.ok ""
                 | some (.str s) => Except.ok s
                 | some _ => Except.error "AttributeError") with
          | .error msg => .error msg
          | .ok ed =>
              match annivMatches ds rest with
              | .error msg => .error msg
              | .ok tail =>
                  .ok (if ed = ds || List.isPrefixOf ds.toList ed.toList
                       then e :: tail else tail)
      | _ => .error "AttributeError"

/-- `KnowledgeBase.get_anniversary_for_date`, parameterised by the
`anniversary_calendar` dict of the external calendar document.  A month
outside 1..12 selects the month key `""`; `calendar.get(month_key, [])`
yields `[]` when the key is absent; iterating a non-list month entry
raises (`TypeError`). -/
def get_anniversary_for_date (calendar : List (String × JsonVal))
    (month day : Int) : Except String (List JsonVal) :=
  match (if 1 ≤ month ∧ month ≤ 12 then pyIndex month_names month else .ok "") with
  | .error m => .error m
  | .ok month_key =>
      match lookupKV month_key calendar with
      | none => annivMatches (dateKey month day) []
      | some (.arr xs) => annivMatches (dateKey month day) xs
      | some _ => .error "TypeError"

/-! ### CorpusManager (`_load_history`, `save_history`)

The shared history file holds a JSON tree (`json.dump`/`json.load`
round-trip JSON values); `none` models a missing file. -/

/-- The default history structure of `_load_history`. -/
def default_history : JsonVal :=
  .obj [("recentDrafts", .arr []), ("publishedTweets", .arr []),
        ("metadata", .obj [("lastUpdated", .str ""), ("version", .str "1.0")])]

/-- `CorpusManager._load_history`: the file's JSON tree, or the default. -/
def _load_history (file : Option JsonVal) : JsonVal := file.getD default_history

/-- `CorpusManager.save_history`: set `history["metadata"]["lastUpdated"]`
to the current time `t` and write the document; raises (`KeyError` /
`TypeError`) when `metadata` is missing or not a dict. -/
def save_history (t : String) (h : JsonObj) : Except String JsonObj :=
  match lookupKV "metadata" h with
  | some (.obj m) => .ok (setKV "metadata" (.obj (setKV "lastUpdated" (.str t) m)) h)
  | some _ => .error "TypeError"
  | none => .error "KeyError"

/-! ### FaytuksDaemon (`scrape_recent_tweets`, `generate_drafts_from_buckets`)

Bucket files are inputs: `(handle, tweets)` pairs, where the handle is the
file stem without `-tweets`.  Tweet dates are modelled as integer epoch
seconds (the source parses fixed-format UTC ISO strings, whose string
order used by the final sort agrees with chronological order); items whose
date fails to parse are skipped by the source and are outside this model.
The clock is an input: `now` for the cutoffs, and one fresh
second-granularity timestamp string per `save_draft` call, supplied as the
`ids` lists. -/

structure Tweet where
  date : Int
  isRetweet : Bool
  text : String

structure Scraped where
  date : Int
  text : String
  handle : String
  bucket : String
deriving DecidableEq

/-- Comparison under which `sorted(recent, key=..., reverse=True)` leaves
the scraped list sorted (most recent first). -/
def dateGE (a b : Scraped) : Prop := b.date ≤ a.date

instance : DecidableRel dateGE := fun a b => inferInstanceAs (Decidable (b.date ≤ a.date))

/-- `FaytuksDaemon.scrape_recent_tweets` over given bucket files: keep
tweets newer than the cutoff instant that are not retweets, tag them with
handle and bucket, and sort by date descending (stable). -/
def scrape_recent_tweets (bucket : String) (files : List (String × List Tweet))
    (cutoff : Int) : List Scraped :=
  ((files.map (fun hf =>
      (hf.2.filter (fun tw => decide (cutoff < tw.date) && !tw.isRetweet)).map
        (fun tw => Scraped.mk tw.date tw.text hf.1 bucket))).flatten).insertionSort dateGE

/-- `Path(path).stem` for the `.json` draft paths. -/
def pathStem (p : String) : String := ⟨p.toList.take (p.toList.length - 5)⟩

/-- Pattern chosen for a saved draft: best detected pattern, or the given
fallback (`pattern or "breaking"` / `pattern or "general"`). -/
def detectOr (text dflt : String) : String :=
  match detect_pattern text with
  | some p => p
  | none => dflt

/-- The breaking-bucket loop of `generate_drafts_from_buckets`: save each
tweet (bilingual posting is skipped — no LLM client, so `persian` is `""`)
and immediately auto-approve it via the saved path's stem.  Each list
entry pairs the clock reading for the `save_draft` call with the tweet. -/
def processBreaking : List (String × Scraped) → DraftState → DraftState
  | [], S => S
  | (t, tw) :: rest, S =>
      let saved := save_draft t tw.text "" (detectOr tw.text "breaking") [] []
        ["@" ++ tw.handle, "breaking"] S
      processBreaking rest (approve_draft (pathStem saved.1) saved.2).2

/-- The commentary/geopolitics loop: save as pending drafts only. -/
def processOther : List (String × Scraped) → DraftState → DraftState
  | [], S => S
  | (t, tw) :: rest, S =>
      processOther rest (save_draft t tw.text "" (detectOr tw.text "general") [] []
        ["@" ++ tw.handle, tw.bucket] S).2

/-- `FaytuksDaemon.generate_drafts_from_buckets` (no LLM client): breaking
tweets within 0.17 h (612 s) of `now`, capped at 5, are saved and
auto-approved; commentary and geopolitics tweets within 24 h (86400 s),
capped at 10 combined, are saved as pending. -/
def generate_drafts_from_buckets (idsB idsO : List String)
    (bFiles cFiles gFiles : List (String × List Tweet)) (now : Int)
    (S : DraftState) : DraftState :=
  processOther (idsO.zip (((scrape_recent_tweets "commentary" cFiles (now - 86400))
      ++ scrape_recent_tweets "geopolitics" gFiles (now - 86400)).take 10))
    (processBreaking (idsB.zip ((scrape_recent_tweets "breaking" bFiles (now - 612)).take 5)) S)

/-- The pending-directory entry created for a commentary/geopolitics tweet. -/
def mkOther (x : String × Scraped) : String × JsonObj :=
  (draftName x.1,
   mkDraft x.1 x.2.text "" (detectOr x.2.text "general") [] [] ["@" ++ x.2.handle, x.2.bucket])

/-- The approved-directory entry created for a breaking tweet. -/
def mkBreaking (x : String × Scraped) : String × JsonObj :=
  (draftName x.1,
   mkDraft x.1 x.2.text "" (detectOr x.2.text "breaking") [] [] ["@" ++ x.2.handle, "breaking"])

/-! ### Lemmas: association lists -/

theorem countKV_nil {α : Type} (k : String) : countKV k ([] : List (String × α)) = 0 := rfl

theorem countKV_cons {α : Type} (k a : String) (b : α) (l : List (String × α)) :
    countKV k ((a, b) :: l) = countKV k l + (if a = k then 1 else 0) := by
  simp [countKV, List.countP_cons]

theorem countKV_append {α : Type} (k : String) (l₁ l₂ : List (String × α)) :
    countKV k (l₁ ++ l₂) = countKV k l₁ + countKV k l₂ := by
  simp [countKV]

theorem lookupKV_setKV_self {α : Type} (k : String) (v : α) (l : List (String × α)) :
    lookupKV k (setKV k v l) = some v := by
  induction l with
  | nil => simp [setKV, lookupKV]
  | cons e rest ih =>
    obtain ⟨a, b⟩ := e
    by_cases h : a = k <;> simp [setKV, lookupKV, h, ih]

theorem lookupKV_setKV_ne {α : Type} {k k' : String} (hne : k' ≠ k) (v : α)
    (l : List (String × α)) : lookupKV k' (setKV k v l) = lookupKV k' l := by
  induction l with
  | nil => simp [setKV, lookupKV, Ne.symm hne]
  | cons e rest ih =>
    obtain ⟨a, b⟩ := e
    by_cases h : a = k
    · simp [setKV, lookupKV, h, Ne.symm hne]
    · simp [setKV, lookupKV, h, ih]

theorem countKV_eq_zero {α : Type} {k : String} {l : List (String × α)} :
    countKV k l = 0 ↔ ∀ e ∈ l, e.1 ≠ k := by
  simp only [countKV, List.countP_eq_zero, beq_iff_eq]

theorem countKV_pos_of_mem {α : Type} {k : String} {l : List (String × α)} {v : α}
    (h : (k, v) ∈ l) : 0 < countKV k l := by
  rw [countKV, List.countP_pos_iff]
  exact ⟨(k, v), h, by simp⟩

theorem setKV_of_fresh {α : Type} {k : String} (v : α) {l : List (String × α)}
    (h : countKV k l = 0) : setKV k v l = l ++ [(k, v)] := by
  induction l with
  | nil => simp [setKV]
  | cons e rest ih =>
    obtain ⟨a, b⟩ := e
    rw [countKV_cons] at h
    have he : a ≠ k := by intro hh; simp [hh] at h
    rw [setKV, if_neg he, List.cons_append, ih (by omega)]

theorem countKV_setKV_self {α : Type} (k : String) (v : α) (l : List (String × α)) :
    countKV k (setKV k v l) = if countKV k l = 0 then 1 else countKV k l := by
  induction l with
  | nil => simp [setKV, countKV_cons, countKV_nil]
  | cons e rest ih =>
    obtain ⟨a, b⟩ := e
    by_cases h : a = k
    · rw [setKV, if_pos h, countKV_cons, countKV_cons]
      simp [h]
    · rw [setKV, if_neg h, countKV_cons, countKV_cons, ih]
      simp only [h, if_false]
      split_ifs <;> omega

theorem countKV_setKV_ne {α : Type} {k k' : String} (hne : k' ≠ k) (v : α)
    (l : List (String × α)) : countKV k' (setKV k v l) = countKV k' l := by
  induction l with
  | nil => simp [setKV, countKV_cons, countKV_nil, Ne.symm hne]
  | cons e rest ih =>
    obtain ⟨a, b⟩ := e
    by_cases h : a = k
    · rw [setKV, if_pos h, countKV_cons, countKV_cons]
    · rw [setKV, if_neg h, countKV_cons, countKV_cons, ih]

theorem countKV_removeKV_self {α : Type} (k : String) (l : List (String × α)) :
    countKV k (removeKV k l) = countKV k l - 1 := by
  induction l with
  | nil => simp [removeKV, countKV_nil]
  | cons e rest ih =>
    obtain ⟨a, b⟩ := e
    by_cases h : a = k
    · rw [removeKV, if_pos h, countKV_cons]
      simp [h]
    · rw [removeKV, if_neg h, countKV_cons, countKV_cons, ih]
      simp only [h, if_false]
      omega

theorem countKV_removeKV_ne {α : Type} {k k' : String} (hne : k' ≠ k)
    (l : List (String × α)) : countKV k' (removeKV k l) = countKV k' l := by
  induction l with
  | nil => simp [removeKV]
  | cons e rest ih =>
    obtain ⟨a, b⟩ := e
    by_cases h : a = k
    · rw [removeKV, if_pos h, countKV_cons]
      have : a ≠ k' := by rw [h]; exact Ne.symm hne
      simp [this]
    · rw [removeKV, if_neg h, countKV_cons, countKV_cons, ih]

theorem removeKV_append_fresh {α : Type} {k : String} {l₁ : List (String × α)}
    (h : countKV k l₁ = 0) (l₂ : List (String × α)) :
    removeKV k (l₁ ++ l₂) = l₁ ++ removeKV k l₂ := by
  induction l₁ with
  | nil => simp
  | cons e rest ih =>
    obtain ⟨a, b⟩ := e
    rw [countKV_cons] at h
    have he : a ≠ k := by intro hh; simp [hh] at h
    rw [List.cons_append, removeKV, if_neg he, ih (by omega), List.cons_append]

theorem countKV_removeKV_le {α : Type} (k m : String) (l : List (String × α)) :
    countKV k (removeKV m l) ≤ countKV k l := by
  by_cases h : k = m
  · subst h
    rw [countKV_removeKV_self]
    omega
  · rw [countKV_removeKV_ne h]

/-! ### Lemmas: substring and glob matching -/

theorem strHas_iff_infix {n h : List Char} : strHas n h = true ↔ n <:+: h := by
  induction h with
  | nil =>
    simp only [strHas, List.isEmpty_iff, List.infix_nil]
  | cons c t ih =>
    simp only [strHas, Bool.or_eq_true, List.isPrefixOf_iff_prefix, ih, List.infix_cons_iff]

theorem globMatch_decomp (a pat : String) :
    globMatch pat (a ++ pat ++ ".json") = true := by
  have hl : (a ++ pat ++ ".json").toList = (a.toList ++ pat.toList) ++ ".json".toList := by
    simp [String.toList, String.data_append]
  rw [globMatch, Bool.and_eq_true]
  constructor
  · rw [List.isSuffixOf_iff_suffix, hl]
    exact List.suffix_append _ _
  · rw [hl]
    have hlen : ((a.toList ++ pat.toList) ++ ".json".toList).length - 5
        = (a.toList ++ pat.toList).length := by
      have h5 : (".json".toList).length = 5 := rfl
      simp only [List.length_append, h5]
      omega
    rw [hlen, List.take_left]
    exact strHas_iff_infix.mpr ⟨a.toList, [], by simp⟩

/-- The filename written for identifier `id` matches a glob search for `id`. -/
theorem globMatch_draftName (draft_id : String) :
    globMatch draft_id (draftName draft_id) = true := by
  have : draftName draft_id = "draft_" ++ draft_id ++ ".json" := rfl
  rw [this]
  exact globMatch_decomp "draft_" draft_id

/-- The filename written for identifier `id` matches a glob search for the
path stem `"draft_" ++ id` (used by the auto-approve step of the daemon). -/
theorem globMatch_stem (draft_id : String) :
    globMatch ("draft_" ++ draft_id) (draftName draft_id) = true := by
  have h1 : draftName draft_id = "" ++ ("draft_" ++ draft_id) ++ ".json" := by
    simp [draftName]
  rw [h1]
  exact globMatch_decomp "" ("draft_" ++ draft_id)

/-! ### Lemmas: glob search over a directory -/

theorem findMatch_eq_none {pat : String} {d : DraftDir} :
    findMatch pat d = none ↔ ∀ e ∈ d, globMatch pat e.1 = false := by
  induction d with
  | nil => simp [findMatch]
  | cons e rest ih =>
    obtain ⟨n, c⟩ := e
    by_cases h : globMatch pat n
    · rw [findMatch, if_pos h]
      simp [h]
    · rw [findMatch, if_neg h]
      rw [ih]
      simp only [List.mem_cons, forall_eq_or_imp]
      constructor
      · intro hh
        exact ⟨Bool.eq_false_iff.mpr h, hh⟩
      · intro hh
        exact hh.2

theorem findMatch_mem {pat : String} {d : DraftDir} {n : String} {c : JsonObj}
    (h : findMatch pat d = some (n, c)) : (n, c) ∈ d ∧ globMatch pat n = true := by
  induction d with
  | nil => simp [findMatch] at h
  | cons e rest ih =>
    obtain ⟨n', c'⟩ := e
    by_cases hg : globMatch pat n'
    · rw [findMatch, if_pos hg] at h
      obtain ⟨rfl, rfl⟩ : n' = n ∧ c' = c := by
        constructor <;> [exact congrArg Prod.fst (Option.some.inj h);
          exact congrArg Prod.snd (Option.some.inj h)]
      exact ⟨by simp, hg⟩
    · rw [findMatch, if_neg hg] at h
      obtain ⟨hm, hh⟩ := ih h
      exact ⟨by simp [hm], hh⟩

theorem findMatch_append_left_none {pat : String} {d₁ : DraftDir} (d₂ : DraftDir)
    (h : ∀ e ∈ d₁, globMatch pat e.1 = false) :
    findMatch pat (d₁ ++ d₂) = findMatch pat d₂ := by
  induction d₁ with
  | nil => simp
  | cons e rest ih =>
    obtain ⟨n, c⟩ := e
    have hn : globMatch pat n = false := h (n, c) (by simp)
    rw [List.cons_append, findMatch, if_neg (by simp [hn])]
    exact ih (fun x hx => h x (by simp [hx]))

/-! ### Lemmas: stability of the score sort -/

theorem filter_orderedInsert_score (s : ℚ) (x : DetectEntry) (l : List DetectEntry) :
    (l.orderedInsert scoreGE x).filter (fun e => e.2.1 == s)
      = if x.2.1 = s then x :: l.filter (fun e => e.2.1 == s)
        else l.filter (fun e => e.2.1 == s) := by
  induction l with
  | nil =>
    by_cases h : x.2.1 = s <;> simp [List.orderedInsert, List.filter_cons, h]
  | cons y t ih =>
    rw [List.orderedInsert]
    by_cases hr : scoreGE x y
    · rw [if_pos hr]
      simp only [List.filter_cons, beq_iff_eq]
    · rw [if_neg hr]
      have hlt : x.2.1 < y.2.1 := lt_of_not_le hr
      by_cases hx : x.2.1 = s
      · have hy : ¬ y.2.1 = s := by
          intro hh
          rw [hx, ← hh] at hlt
          exact lt_irrefl _ hlt
        simp only [List.filter_cons, beq_iff_eq, hx, hy, if_true, if_false, ih]
      · simp only [List.filter_cons, beq_iff_eq, hx, if_false, ih]

theorem filter_insertionSort_score (s : ℚ) (l : List DetectEntry) :
    (l.insertionSort scoreGE).filter (fun e => e.2.1 == s)
      = l.filter (fun e => e.2.1 == s) := by
  induction l with
  | nil => rfl
  | cons x t ih =>
    rw [List.insertionSort, filter_orderedInsert_score, ih]
    simp only [List.filter_cons, beq_iff_eq]

/--
Claim C2: for every input text, `auto_detect_pattern text`
(1) has non-increasing scores;
(2) returns only keys of `PATTERN_TRIGGERS`, each with a non-empty matched
    keyword list equal to the triggers of that pattern occurring
    case-insensitively in the text, and with score
    `|matched| / |triggers|`; and
(3) is stable: the entries of any one score appear exactly as in the
    pre-sort `rawResults`, which lists patterns in original table order.
-/
theorem auto_detect_pattern_spec (text : String) :
    List.Sorted (fun a b : ℚ => a ≥ b) ((auto_detect_pattern text).map (fun e => e.2.1)) ∧
    (∀ e ∈ auto_detect_pattern text, ∃ trig,
      (e.1, trig) ∈ PATTERN_TRIGGERS ∧
      e.2.2 = trig.filter (fun t => strHas (pyLower t) (pyLower text)) ∧
      e.2.2 ≠ [] ∧
      e.2.1 = (e.2.2.length : ℚ) / (trig.length : ℚ)) ∧
    (∀ s : ℚ, (auto_detect_pattern text).filter (fun e => e.2.1 == s)
      = (rawResults text).filter (fun e => e.2.1 == s)) := by
  refine ⟨?_, ?_, ?_⟩
  · exact List.pairwise_map.mpr (List.sorted_insertionSort scoreGE (rawResults text))
  · intro e he
    rw [auto_detect_pattern, (List.perm_insertionSort scoreGE (rawResults text)).mem_iff] at he
    rw [rawResults, List.mem_filterMap] at he
    obtain ⟨pt, hpt, hsome⟩ := he
    have hsome' :
        (if (List.filter (fun t => strHas (pyLower t) (pyLower text)) pt.2).isEmpty = true
          then none
          else some (pt.1,
            ((List.filter (fun t => strHas (pyLower t) (pyLower text)) pt.2).length : ℚ)
              / (pt.2.length : ℚ),
            List.filter (fun t => strHas (pyLower t) (pyLower text)) pt.2)) = some e := hsome
    cases hm : (pt.2.filter (fun t => strHas (pyLower t) (pyLower text))).isEmpty with
    | true =>
      rw [hm] at hsome'
      simp at hsome'
    | false =>
      rw [hm] at hsome'
      simp only [Bool.false_eq_true, if_false] at hsome'
      obtain rfl := Option.some.inj hsome'
      refine ⟨pt.2, by simpa using hpt, rfl, ?_, rfl⟩
      intro hnil
      have hfil : pt.2.filter (fun t => strHas (pyLower t) (pyLower text)) = [] := hnil
      rw [hfil] at hm
      simp at hm
  · intro s
    exact filter_insertionSort_score s (rawResults text)

/--
Claim C8: on the text `"Cinema Rex fire in Rasht bazaar"`,
`auto_detect_pattern` returns `fire_parallel` with 4 (≥ 2) matched trigger
keywords, ranked at or above every returned entry that matched fewer
keywords.
-/
theorem auto_detect_cinema_rex :
    ∃ i ks sc, (auto_detect_pattern "Cinema Rex fire in Rasht bazaar").get? i
        = some ("fire_parallel", sc, ks) ∧
      2 ≤ ks.length ∧
      ∀ j e, (auto_detect_pattern "Cinema Rex fire in Rasht bazaar").get? j = some e →
        e.2.2.length < ks.length → i ≤ j := by
  have hout : auto_detect_pattern "Cinema Rex fire in Rasht bazaar"
      = [("fire_parallel", ((4 : ℚ)/8), ["fire", "Cinema Rex", "Rasht", "bazaar"])] := rfl
  refine ⟨0, ["fire", "Cinema Rex", "Rasht", "bazaar"], (4 : ℚ)/8, ?_, by simp, ?_⟩
  · rw [hout]; rfl
  · intro j e _ _
    exact Nat.zero_le j

/-! ### C1: one on-disk record per identifier -/

/-- Number of files named `n` across the three lifecycle directories. -/
def countAll (S : DraftState) (n : String) : Nat :=
  countKV n S.pending + countKV n S.approved + countKV n S.posted

/-- States reachable from the empty store by the four lifecycle
operations, where every `save_draft` uses a fresh identifier (one whose
file is not currently stored anywhere — the case of creations in distinct
seconds). -/
inductive Reach : DraftState → Prop
  | init : Reach emptyState
  | create (t e pe pa : String) (m hs src : List String) {S : DraftState} :
      Reach S → countAll S (draftName t) = 0 →
      Reach (save_draft t e pe pa m hs src S).2
  | approve (draft_id : String) {S : DraftState} :
      Reach S → Reach (approve_draft draft_id S).2
  | post (draft_id : String) (tid : Option String) (ts : String) {S : DraftState} :
      Reach S → Reach (mark_posted draft_id tid ts S).2
  | reject (draft_id : String) {S : DraftState} :
      Reach S → Reach (reject_draft draft_id S).2

theorem countAll_save_le (t e pe pa : String) (m hs src : List String) (S : DraftState)
    (ih : ∀ n, countAll S n ≤ 1) (hfresh : countAll S (draftName t) = 0) :
    ∀ n, countAll (save_draft t e pe pa m hs src S).2 n ≤ 1 := by
  intro n
  by_cases hn : n = draftName t
  · subst hn
    have h0 : countKV (draftName t) S.pending = 0 := by
      unfold countAll at hfresh
      omega
    have h1 : countKV (draftName t) S.approved = 0 := by
      unfold countAll at hfresh
      omega
    have h2 : countKV (draftName t) S.posted = 0 := by
      unfold countAll at hfresh
      omega
    simp only [countAll, save_draft, fsWrite]
    rw [countKV_setKV_self, h0, h1, h2]
    simp
  · have hle := ih n
    simp only [countAll, save_draft, fsWrite] at hle ⊢
    rw [countKV_setKV_ne hn]
    exact hle

theorem countAll_approve_le (draft_id : String) (S : DraftState)
    (ih : ∀ n, countAll S n ≤ 1) :
    ∀ n, countAll (approve_draft draft_id S).2 n ≤ 1 := by
  intro n
  rcases hf : findMatch draft_id S.pending with _ | ⟨fn, c⟩
  · simp only [approve_draft, hf]
    exact ih n
  · obtain ⟨hmem, _⟩ := findMatch_mem hf
    have hpos : 0 < countKV fn S.pending := countKV_pos_of_mem hmem
    have hfn := ih fn
    simp only [countAll] at hfn
    simp only [approve_draft, hf, countAll, fsWrite, fsRemove]
    by_cases hn : n = fn
    · subst hn
      rw [countKV_removeKV_self, countKV_setKV_self]
      have ha : countKV n S.approved = 0 := by omega
      rw [ha, if_pos rfl]
      omega
    · rw [countKV_removeKV_ne hn, countKV_setKV_ne hn]
      exact ih n

theorem countAll_post_le (draft_id : String) (tid : Option String) (ts : String)
    (S : DraftState) (ih : ∀ n, countAll S n ≤ 1) :
    ∀ n, countAll (mark_posted draft_id tid ts S).2 n ≤ 1 := by
  intro n
  rcases hf : findMatch draft_id S.approved with _ | ⟨fn, c⟩
  · simp only [mark_posted, hf]
    exact ih n
  · obtain ⟨hmem, _⟩ := findMatch_mem hf
    have hpos : 0 < countKV fn S.approved := countKV_pos_of_mem hmem
    have hfn := ih fn
    simp only [countAll] at hfn
    simp only [mark_posted, hf, countAll, fsWrite, fsRemove]
    by_cases hn : n = fn
    · subst hn
      rw [countKV_removeKV_self, countKV_setKV_self]
      have hp : countKV n S.posted = 0 := by omega
      rw [hp, if_pos rfl]
      omega
    · rw [countKV_removeKV_ne hn, countKV_setKV_ne hn]
      exact ih n

theorem countAll_reject_le (draft_id : String) (S : DraftState)
    (ih : ∀ n, countAll S n ≤ 1) :
    ∀ n, countAll (reject_draft draft_id S).2 n ≤ 1 := by
  intro n
  have hle := ih n
  simp only [countAll] at hle
  rcases hfp : findMatch draft_id S.pending with _ | ⟨fn, c⟩
  · rcases hfa : findMatch draft_id S.approved with _ | ⟨gn, d⟩
    · simp only [countAll, reject_draft, hfp, hfa, fsRemove]
      exact hle
    · simp only [countAll, reject_draft, hfp, hfa, fsRemove]
      have h2 := countKV_removeKV_le n gn S.approved
      omega
  · rcases hfa : findMatch draft_id S.approved with _ | ⟨gn, d⟩
    · simp only [countAll, reject_draft, hfp, hfa, fsRemove]
      have h1 := countKV_removeKV_le n fn S.pending
      omega
    · simp only [countAll, reject_draft, hfp, hfa, fsRemove]
      have h1 := countKV_removeKV_le n fn S.pending
      have h2 := countKV_removeKV_le n gn S.approved
      omega

theorem reach_countAll_le_one {S : DraftState} (h : Reach S) : ∀ n, countAll S n ≤ 1 := by
  induction h with
  | init =>
    intro n
    simp [emptyState, countAll, countKV_nil]
  | create t e pe pa m hs src hR hfresh ih =>
    exact countAll_save_le t e pe pa m hs src _ ih hfresh
  | approve draft_id hR ih =>
    exact countAll_approve_le draft_id _ ih
  | post draft_id tid ts hR ih =>
    exact countAll_post_le draft_id tid ts _ ih
  | reject draft_id hR ih =>
    exact countAll_reject_le draft_id _ ih

/--
Claim C1, amended: over every sequence of `save_draft` / `approve_draft` /
`mark_posted` / reject operations from the empty store in which each
`save_draft` call uses a fresh identifier (no record of that identifier
already stored — automatic when creations happen in distinct seconds), at
most one on-disk record with a given identifier exists across the pending,
approved and posted collections at any time.
-/
theorem draft_id_unique {S : DraftState} (h : Reach S) (draft_id : String) :
    countAll S (draftName draft_id) ≤ 1 :=
  reach_countAll_le_one h (draftName draft_id)

/-- Witness for C1: after a fresh create followed by its approval, the
identifier has exactly (at most) one record. -/
theorem draft_id_unique_witness :
    countAll (approve_draft "20260101_120000"
        (save_draft "20260101_120000" "Hello" "" "general" [] [] [] emptyState).2).2
      (draftName "20260101_120000") ≤ 1 :=
  draft_id_unique
    (Reach.approve "20260101_120000"
      (Reach.create "20260101_120000" "Hello" "" "general" [] [] [] Reach.init (by decide)))
    "20260101_120000"

/--
Counterexample to C1 as stated: `save_draft` derives identifiers from the
clock at second granularity, so the same identifier can be issued twice.
The sequence create → approve → create (same second) leaves two on-disk
records with the identifier `20260101_120000`: one in `approved/` and one
in `pending/`.
-/
theorem draft_id_duplicate_counterexample :
    countAll (save_draft "20260101_120000" "Second" "" "general" [] [] []
        (approve_draft "20260101_120000"
          (save_draft "20260101_120000" "First" "" "general" [] [] [] emptyState).2).2).2
      (draftName "20260101_120000") = 2 := by decide

/-! ### C3: create-then-approve -/

/--
Claim C3: starting from collections whose records are named by their own
identifiers and in which no stored identifier matches the new draft's
identifier (in the code's fixed 15-character timestamp format, a stored
filename glob-matches `draft_id` exactly when the stored identifier
contains `draft_id` as a substring), saving a draft and approving its
identifier returns `True` and moves the record from `pending/` to
`approved/`; `list_pending` afterwards never contains that identifier; and
a second `approve_draft` of the same identifier returns `False` with the
state unchanged (no exception: a lookup miss is a normal result).
-/
theorem save_then_approve (S0 : DraftState) (draft_id e pe pa : String)
    (m hs src : List String)
    (H : ∀ nc ∈ S0.pending ++ S0.approved ++ S0.posted,
      ∃ i, nc.1 = draftName i ∧ lookupKV "id" nc.2 = some (.str i) ∧
        globMatch draft_id nc.1 = false) :
    (approve_draft draft_id (save_draft draft_id e pe pa m hs src S0).2).1 = true ∧
    (approve_draft draft_id (save_draft draft_id e pe pa m hs src S0).2).2.pending
      = S0.pending ∧
    (approve_draft draft_id (save_draft draft_id e pe pa m hs src S0).2).2.approved
      = S0.approved ++ [(draftName draft_id, mkDraft draft_id e pe pa m hs src)] ∧
    (approve_draft draft_id (save_draft draft_id e pe pa m hs src S0).2).2.posted
      = S0.posted ∧
    (∀ d ∈ list_pending (approve_draft draft_id
        (save_draft draft_id e pe pa m hs src S0).2).2,
      lookupKV "id" d ≠ some (.str draft_id)) ∧
    approve_draft draft_id (approve_draft draft_id
        (save_draft draft_id e pe pa m hs src S0).2).2
      = (false, (approve_draft draft_id (save_draft draft_id e pe pa m hs src S0).2).2) := by
  have hidglob : globMatch draft_id (draftName draft_id) = true := globMatch_draftName draft_id
  have hPglob : ∀ nc ∈ S0.pending, globMatch draft_id nc.1 = false := by
    intro nc hnc
    obtain ⟨i, _, _, hg⟩ := H nc (by simp [hnc])
    exact hg
  have hAglob : ∀ nc ∈ S0.approved, globMatch draft_id nc.1 = false := by
    intro nc hnc
    obtain ⟨i, _, _, hg⟩ := H nc (by simp [hnc])
    exact hg
  have hfreshP : countKV (draftName draft_id) S0.pending = 0 := by
    rw [countKV_eq_zero]
    intro nc hnc heq
    have hg := hPglob nc hnc
    rw [heq, hidglob] at hg
    exact absurd hg (by simp)
  have hfreshA : countKV (draftName draft_id) S0.approved = 0 := by
    rw [countKV_eq_zero]
    intro nc hnc heq
    have hg := hAglob nc hnc
    rw [heq, hidglob] at hg
    exact absurd hg (by simp)
  have hS1 : (save_draft draft_id e pe pa m hs src S0).2
      = ⟨S0.pending ++ [(draftName draft_id, mkDraft draft_id e pe pa m hs src)],
         S0.approved, S0.posted⟩ := by
    simp only [save_draft, fsWrite]
    rw [setKV_of_fresh _ hfreshP]
  have hfind : findMatch draft_id (S0.pending
      ++ [(draftName draft_id, mkDraft draft_id e pe pa m hs src)])
      = some (draftName draft_id, mkDraft draft_id e pe pa m hs src) := by
    rw [findMatch_append_left_none _ hPglob]
    simp [findMatch, hidglob]
  have hr : approve_draft draft_id (save_draft draft_id e pe pa m hs src S0).2
      = (true, ⟨S0.pending,
          S0.approved ++ [(draftName draft_id, mkDraft draft_id e pe pa m hs src)],
          S0.posted⟩) := by
    rw [hS1]
    simp only [approve_draft, hfind, fsRemove, fsWrite]
    rw [removeKV_append_fresh hfreshP, setKV_of_fresh _ hfreshA]
    simp [removeKV]
  have hfindP0 : findMatch draft_id S0.pending = none := findMatch_eq_none.mpr hPglob
  refine ⟨by rw [hr], by rw [hr], by rw [hr], by rw [hr], ?_, ?_⟩
  · intro d hd
    rw [hr] at hd
    rw [list_pending] at hd
    rw [(List.perm_insertionSort createdGE _).mem_iff, List.mem_map] at hd
    obtain ⟨nc, hnc, rfl⟩ := hd
    obtain ⟨i, hname, hid, hglob⟩ := H nc (by simp [hnc])
    intro heq
    rw [hid] at heq
    obtain rfl : i = draft_id := JsonVal.str.inj (Option.some.inj heq)
    rw [hname, hidglob] at hglob
    exact absurd hglob (by simp)
  · rw [hr]
    simp only [approve_draft, hfindP0]

/-- A store for the C3 witness: one unrelated pending draft. -/
def c3Start : DraftState :=
  ⟨[(draftName "20250101_000000",
     mkDraft "20250101_000000" "Old draft" "" "general" [] [] [])], [], []⟩

/-- Witness for C3 at a concrete store and fresh identifier. -/
theorem save_then_approve_witness :
    (approve_draft "20260101_000001"
        (save_draft "20260101_000001" "Breaking news" "" "general" [] [] [] c3Start).2).1
      = true ∧
    approve_draft "20260101_000001"
        (approve_draft "20260101_000001"
          (save_draft "20260101_000001" "Breaking news" "" "general" [] [] [] c3Start).2).2
      = (false, (approve_draft "20260101_000001"
          (save_draft "20260101_000001" "Breaking news" "" "general" [] [] [] c3Start).2).2) := by
  have h := save_then_approve c3Start "20260101_000001" "Breaking news" "" "general" [] [] []
    (by
      intro nc hnc
      simp only [c3Start, List.append_nil, List.mem_singleton] at hnc
      subst hnc
      exact ⟨"20250101_000000", rfl, rfl, by decide⟩)
  exact ⟨h.1, h.2.2.2.2.2⟩

/-! ### C4: mark_posted on an unmatched identifier -/

/--
Claim C4: when no record in `approved/` matches the identifier,
`mark_posted` returns `False` and leaves the whole store unchanged — in
particular it creates no file in `posted/`.
-/
theorem mark_posted_unmatched (S : DraftState) (draft_id ts : String) (tid : Option String)
    (H : ∀ nc ∈ S.approved, globMatch draft_id nc.1 = false) :
    mark_posted draft_id tid ts S = (false, S) := by
  simp only [mark_posted, findMatch_eq_none.mpr H]

/-- A store for the C4/C10 witnesses: one approved draft carrying a field
this system does not populate. -/
def c4Start : DraftState :=
  ⟨[],
   [(draftName "20250101_000000",
     ("counterpart_field", JsonVal.num 7) :: mkDraft "20250101_000000" "Done" "" "general" [] [] [])],
   []⟩

/-- Witness for C4: an identifier matching nothing in `approved/`. -/
theorem mark_posted_unmatched_witness :
    mark_posted "20260101_000002" none "2026-01-01T00:00:05" c4Start = (false, c4Start) :=
  mark_posted_unmatched c4Start "20260101_000002" "2026-01-01T00:00:05" none
    (by
      intro nc hnc
      simp only [c4Start, List.mem_singleton] at hnc
      subst hnc
      decide)

/-! ### C10: mark_posted frame condition -/

/--
Claim C10: a successful `mark_posted` writes to `posted/` the matched
record with exactly `status`, `posted_at` and `tweet_id` updated; the
binding of every other key — including keys this system never writes — is
unchanged.
-/
theorem mark_posted_frame (S : DraftState) (draft_id ts : String) (tid : Option String)
    (n : String) (c : JsonObj)
    (hf : findMatch draft_id S.approved = some (n, c)) :
    (mark_posted draft_id tid ts S).1 = true ∧
    (mark_posted draft_id tid ts S).2.posted = fsWrite n (postedRecord c tid ts) S.posted ∧
    (mark_posted draft_id tid ts S).2.pending = S.pending ∧
    lookupKV "status" (postedRecord c tid ts) = some (.str "posted") ∧
    lookupKV "posted_at" (postedRecord c tid ts) = some (.str ts) ∧
    lookupKV "tweet_id" (postedRecord c tid ts) = some (tidVal tid) ∧
    (∀ k, k ≠ "status" → k ≠ "posted_at" → k ≠ "tweet_id" →
      lookupKV k (postedRecord c tid ts) = lookupKV k c) := by
  refine ⟨by simp [mark_posted, hf], by simp [mark_posted, hf], by simp [mark_posted, hf],
    ?_, ?_, ?_, ?_⟩
  · rw [postedRecord.eq_def, lookupKV_setKV_ne (by decide), lookupKV_setKV_ne (by decide),
      lookupKV_setKV_self]
  · rw [postedRecord.eq_def, lookupKV_setKV_ne (by decide), lookupKV_setKV_self]
  · rw [postedRecord.eq_def, lookupKV_setKV_self]
  · intro k h1 h2 h3
    rw [postedRecord.eq_def, lookupKV_setKV_ne h3, lookupKV_setKV_ne h2, lookupKV_setKV_ne h1]

/-- Witness for C10: posting the approved draft of `c4Start` preserves the
foreign `counterpart_field` binding. -/
theorem mark_posted_frame_witness :
    (mark_posted "20250101_000000" (some "12345") "2026-01-01T00:00:05" c4Start).1 = true ∧
    lookupKV "counterpart_field"
        (postedRecord (("counterpart_field", JsonVal.num 7)
          :: mkDraft "20250101_000000" "Done" "" "general" [] [] [])
          (some "12345") "2026-01-01T00:00:05")
      = lookupKV "counterpart_field" (("counterpart_field", JsonVal.num 7)
          :: mkDraft "20250101_000000" "Done" "" "general" [] [] []) := by
  have h := mark_posted_frame c4Start "20250101_000000" "2026-01-01T00:00:05" (some "12345")
    (draftName "20250101_000000")
    (("counterpart_field", JsonVal.num 7) :: mkDraft "20250101_000000" "Done" "" "general" [] [] [])
    rfl
  exact ⟨h.1, h.2.2.2.2.2.2 "counterpart_field" (by decide) (by decide) (by decide)⟩

/-! ### C6: history round-trip -/

/--
Claim C6: for every generation-history object (a JSON object with the
metadata block the shared-document contract requires), writing it with
`save_history` and reading it back with `_load_history` yields a
structurally identical object except for `metadata.lastUpdated`, which
`save_history` sets to the write time; every other binding — including
fields and records this system does not itself populate — is preserved.
-/
theorem history_roundtrip (h m : JsonObj) (t : String)
    (hm : lookupKV "metadata" h = some (.obj m)) :
    ∃ h', save_history t h = .ok h' ∧
      _load_history (some (.obj h')) = .obj h' ∧
      lookupKV "metadata" h' = some (.obj (setKV "lastUpdated" (.str t) m)) ∧
      lookupKV "lastUpdated" (setKV "lastUpdated" (.str t) m) = some (.str t) ∧
      (∀ k, k ≠ "metadata" → lookupKV k h' = lookupKV k h) ∧
      (∀ k, k ≠ "lastUpdated" →
        lookupKV k (setKV "lastUpdated" (.str t) m) = lookupKV k m) := by
  refine ⟨setKV "metadata" (.obj (setKV "lastUpdated" (.str t) m)) h, ?_, rfl, ?_, ?_, ?_, ?_⟩
  · rw [save_history, hm]
  · exact lookupKV_setKV_self _ _ _
  · exact lookupKV_setKV_self _ _ _
  · intro k hk
    exact lookupKV_setKV_ne hk _ _
  · intro k hk
    exact lookupKV_setKV_ne hk _ _

/-- A concrete history document for the C6 witness, carrying entries and
fields this system never writes. -/
def c6History : JsonObj :=
  [("recentDrafts", .arr [.obj [("id", .str "draft_x"), ("theme", .str "t"),
      ("unknownField", .num 3)]]),
   ("publishedTweets", .arr [.obj [("id", .str "pub_y"),
      ("counterpartOnly", .bool true)]]),
   ("somethingElse", .str "kept"),
   ("metadata", .obj [("lastUpdated", .str "old"), ("version", .str "1.0")])]

/-- Witness for C6 on `c6History`: the write succeeds and the unknown
top-level binding survives the round trip. -/
theorem history_roundtrip_witness :
    save_history "2026-01-01T00:00:00" c6History
      = .ok (setKV "metadata"
          (.obj (setKV "lastUpdated" (.str "2026-01-01T00:00:00")
            [("lastUpdated", .str "old"), ("version", .str "1.0")])) c6History) ∧
    lookupKV "somethingElse" (setKV "metadata"
          (.obj (setKV "lastUpdated" (.str "2026-01-01T00:00:00")
            [("lastUpdated", .str "old"), ("version", .str "1.0")])) c6History)
      = lookupKV "somethingElse" c6History := by
  obtain ⟨h', h1, _, _, _, h5, _⟩ := history_roundtrip c6History
    [("lastUpdated", .str "old"), ("version", .str "1.0")] "2026-01-01T00:00:00" rfl
  have hsave : save_history "2026-01-01T00:00:00" c6History
      = .ok (setKV "metadata"
          (.obj (setKV "lastUpdated" (.str "2026-01-01T00:00:00")
            [("lastUpdated", .str "old"), ("version", .str "1.0")])) c6History) := rfl
  obtain rfl : h' = setKV "metadata"
      (.obj (setKV "lastUpdated" (.str "2026-01-01T00:00:00")
        [("lastUpdated", .str "old"), ("version", .str "1.0")])) c6History :=
    Except.ok.inj (h1.symm.trans hsave)
  exact ⟨h1, h5 "somethingElse" (by decide)⟩

/-! ### C9: invalid month -/

/--
Claim C9: for every month outside 1..12 (and any day), and every calendar
document without an (unrealistic) empty-string month key,
`get_anniversary_for_date` returns `.ok []`: the empty list, with no
exception — the guarded month-name indexing never raises. -/
theorem anniversary_invalid_month (calendar : List (String × JsonVal))
    (month day : Int) (hmonth : month < 1 ∨ 12 < month)
    (hkey : lookupKV "" calendar = none) :
    get_anniversary_for_date calendar month day = .ok [] := by
  have hguard : ¬ (1 ≤ month ∧ month ≤ 12) := by omega
  simp [get_anniversary_for_date, hguard, hkey, annivMatches]

/-- Witness for C9: month 13, day 1 on a one-month calendar. -/
theorem anniversary_invalid_month_witness :
    get_anniversary_for_date
      [("january", .arr [.obj [("date", .str "01-16"), ("event", .str "Shah departs")]])]
      13 1 = .ok [] :=
  anniversary_invalid_month _ 13 1 (by omega) rfl

/-! ### C7: enrichment fallback and context cap -/

theorem relevantFacts_sublist {kws : List String} :
    ∀ {facts rel : List JsonObj}, relevantFacts kws facts = some rel → rel.Sublist facts := by
  intro facts
  induction facts with
  | nil =>
    intro rel h
    obtain rfl : ([] : List JsonObj) = rel := Option.some.inj h
    exact List.Sublist.refl []
  | cons f fs ih =>
    intro rel h
    rw [relevantFacts] at h
    rcases hft : factText f with _ | txt
    · rw [hft] at h
      exact absurd h (by simp)
    · rw [hft] at h
      rcases hrest : relevantFacts kws fs with _ | rest
      · rw [hrest] at h
        exact absurd h (by simp)
      · rw [hrest] at h
        have hr := Option.some.inj h
        by_cases hc : kws.any (fun kw => strHas (pyLower kw) txt)
        · rw [if_pos hc] at hr
          rw [← hr]
          exact List.Sublist.cons₂ f (ih hrest)
        · rw [if_neg hc] at hr
          rw [← hr]
          exact List.Sublist.cons f (ih hrest)

/--
Counterexample to C7 as stated: on a draft whose text matches no pattern
but which carries its own `pattern` field (as every bucket-generated draft
does), `enrich_draft` uses that stored field — here `"breaking"` — as the
detected pattern, not the fixed default `massacre_escalation`.
-/
theorem enrich_fallback_counterexample :
    auto_detect_pattern "zzz" = [] ∧
    (enrich_draft [("english", .str "zzz"), ("pattern", .str "breaking")] [] []).isSome
      = true ∧
    lookupKV "detected_pattern"
        ((enrich_draft [("english", .str "zzz"), ("pattern", .str "breaking")] [] []).getD [])
      = some (.str "breaking") ∧
    (JsonVal.str "breaking") ≠ (JsonVal.str "massacre_escalation") := by
  refine ⟨rfl, rfl, rfl, ?_⟩
  intro h
  have := JsonVal.str.inj h
  exact absurd this (by decide)

/--
Claim C7, amended: (1) when the pattern matcher finds no pattern in the
draft's text, `enrich_draft` uses the draft's own stored `pattern` field
as the detected pattern, falling back to the fixed default
`massacre_escalation` only when the draft has no `pattern` field; and
(2) the historical context holds at most 3 facts — the first facts
matching the pattern's keywords, in the KnowledgeStore's original
document order (a prefix of an order-preserving sublist; no ranking).
-/
theorem enrich_defaults_and_context_cap :
    (∀ (draft : JsonObj) (facts : List JsonObj) (eras : List (String × JsonVal))
      (text : String) (enriched : JsonObj),
      lookupKV "english" draft = some (.str text) →
      auto_detect_pattern text = [] →
      enrich_draft draft facts eras = some enriched →
      lookupKV "detected_pattern" enriched
        = some ((lookupKV "pattern" draft).getD (.str "massacre_escalation"))) ∧
    (∀ (facts : List JsonObj) (eras : List (String × JsonVal)) (p : JsonVal) (ctx : HistCtx),
      get_historical_context facts eras p = some ctx →
      ctx.facts.length ≤ 3 ∧
      ∃ kws rel, patternFactKws p = some kws ∧ relevantFacts kws facts = some rel ∧
        ctx.facts = rel.take 3 ∧ rel.Sublist facts) := by
  constructor
  · intro draft facts eras text enriched heng hdet henr
    rw [enrich_draft, heng] at henr
    dsimp only [] at henr
    have hdp : detect_pattern text = none := by
      rw [detect_pattern, hdet]
    rw [hdp] at henr
    dsimp only [] at henr
    rcases hctx : get_historical_context facts eras
        ((lookupKV "pattern" draft).getD (.str "massacre_escalation")) with _ | ctx
    · rw [hctx] at henr
      exact absurd henr (by simp)
    · rw [hctx] at henr
      dsimp only [] at henr
      rcases hera : (match ctx.era with
          | none => some JsonVal.null
          | some v =>
              if jFalsy v then some JsonVal.null
              else match v with
                   | .obj o => some ((lookupKV "name" o).getD .null)
                   | _ => none) with _ | en
      · rw [hera] at henr
        exact absurd henr (by simp)
      · rw [hera] at henr
        obtain rfl := (Option.some.inj henr).symm
        rw [lookupKV_setKV_ne (by decide), lookupKV_setKV_self]
  · intro facts eras p ctx hctx
    rw [get_historical_context] at hctx
    rcases hkws : patternFactKws p with _ | kws
    · rw [hkws] at hctx
      exact absurd hctx (by simp)
    · rw [hkws] at hctx
      dsimp only [] at hctx
      rcases hrel : relevantFacts kws facts with _ | rel
      · rw [hrel] at hctx
        exact absurd hctx (by simp)
      · rw [hrel] at hctx
        rcases heraf : eraFor p eras with _ | era
        · rw [heraf] at hctx
          exact absurd hctx (by simp)
        · rw [heraf] at hctx
          obtain rfl := (Option.some.inj hctx).symm
          refine ⟨?_, kws, rel, rfl, hrel, rfl, relevantFacts_sublist hrel⟩
          exact List.length_take_le 3 rel

/-- Witness for C7: a patternless draft without a `pattern` field falls
back to `massacre_escalation`, and a `fire_parallel` context query caps
and order-preserves its facts. -/
theorem enrich_defaults_witness :
    lookupKV "detected_pattern"
        ([("english", .str "zzz"), ("detected_pattern", .str "massacre_escalation"),
          ("historical_context", .obj [("facts_count", .num 0), ("era", .null)])] : JsonObj)
      = some (.str "massacre_escalation") ∧
    (HistCtx.mk [[("fact", .str "Cinema Rex fire, 1978")]] none (.str "fire_parallel")).facts.length
      ≤ 3 := by
  constructor
  · exact enrich_defaults_and_context_cap.1 [("english", .str "zzz")] [] [] "zzz"
      [("english", .str "zzz"), ("detected_pattern", .str "massacre_escalation"),
       ("historical_context", .obj [("facts_count", .num 0), ("era", .null)])]
      rfl rfl rfl
  · exact (enrich_defaults_and_context_cap.2
      [[("fact", .str "Cinema Rex fire, 1978")], [("fact", .str "unrelated")]] []
      (.str "fire_parallel")
      (HistCtx.mk [[("fact", .str "Cinema Rex fire, 1978")]] none (.str "fire_parallel"))
      rfl).1

/-! ### C5: ingestion cycle -/

theorem mem_scrape {b : String} {files : List (String × List Tweet)} {cutoff : Int}
    {s : Scraped} :
    s ∈ scrape_recent_tweets b files cutoff ↔
      ∃ hf ∈ files, ∃ tw ∈ hf.2, cutoff < tw.date ∧ tw.isRetweet = false ∧
        s = ⟨tw.date, tw.text, hf.1, b⟩ := by
  rw [scrape_recent_tweets, (List.perm_insertionSort dateGE _).mem_iff]
  simp only [List.mem_flatten, List.mem_map]
  constructor
  · rintro ⟨l, ⟨hf, hhf, rfl⟩, hs⟩
    obtain ⟨tw, htw, rfl⟩ := List.mem_map.mp hs
    obtain ⟨htwmem, hcond⟩ := List.mem_filter.mp htw
    simp only [Bool.and_eq_true, decide_eq_true_eq, Bool.not_eq_true'] at hcond
    exact ⟨hf, hhf, tw, htwmem, hcond.1, hcond.2, rfl⟩
  · rintro ⟨hf, hhf, tw, htwmem, hdate, hrt, rfl⟩
    refine ⟨_, ⟨hf, hhf, rfl⟩, ?_⟩
    refine List.mem_map.mpr ⟨tw, List.mem_filter.mpr ⟨htwmem, ?_⟩, rfl⟩
    simp [hdate, hrt]

theorem pathStem_draftName (t : String) : pathStem (draftName t) = "draft_" ++ t := by
  have h1 : (draftName t).toList = ("draft_" ++ t).toList ++ ".json".toList := by
    simp [draftName, String.toList, String.data_append, String.append_assoc]
  rw [pathStem, h1]
  have h5 : (".json".toList).length = 5 := rfl
  have h2 : (("draft_" ++ t).toList ++ ".json".toList).length - 5
      = (("draft_" ++ t).toList).length := by
    simp only [List.length_append, h5]
    omega
  rw [h2, List.take_left]
  rfl

theorem processBreaking_spec :
    ∀ (pairs : List (String × Scraped)) (A P : DraftDir),
    (pairs.map (fun x => draftName x.1)).Nodup →
    (∀ x ∈ pairs, countKV (draftName x.1) A = 0) →
    processBreaking pairs ⟨[], A, P⟩ = ⟨[], A ++ pairs.map mkBreaking, P⟩ := by
  intro pairs
  induction pairs with
  | nil =>
    intro A P _ _
    simp [processBreaking]
  | cons x rest ih =>
    intro A P hnodup hfresh
    obtain ⟨t, tw⟩ := x
    rw [processBreaking]
    have hsave : save_draft t tw.text "" (detectOr tw.text "breaking") [] []
        ["@" ++ tw.handle, "breaking"] ⟨[], A, P⟩
        = (draftName t, ⟨[mkBreaking (t, tw)], A, P⟩) := by
      simp [save_draft, fsWrite, setKV, mkBreaking]
    rw [hsave]
    dsimp only []
    rw [pathStem_draftName]
    have happrove : approve_draft ("draft_" ++ t) ⟨[mkBreaking (t, tw)], A, P⟩
        = (true, ⟨[], A ++ [mkBreaking (t, tw)], P⟩) := by
      have hfind : findMatch ("draft_" ++ t) [mkBreaking (t, tw)]
          = some (draftName t, (mkBreaking (t, tw)).2) := by
        simp [findMatch, mkBreaking, globMatch_stem t]
      simp only [approve_draft, hfind, fsRemove, fsWrite]
      rw [setKV_of_fresh _ (hfresh (t, tw) (by simp))]
      simp [removeKV, mkBreaking]
    rw [happrove]
    dsimp only []
    rw [List.map_cons] at hnodup
    obtain ⟨hhead, htail⟩ := List.nodup_cons.mp hnodup
    rw [ih (A ++ [mkBreaking (t, tw)]) P htail ?_]
    · simp
    · intro x hx
      rw [countKV_append, hfresh x (by simp [hx])]
      have hne : draftName x.1 ≠ draftName t := by
        intro hcontra
        exact hhead (List.mem_map.mpr ⟨x, hx, hcontra⟩)
      simp [countKV_cons, countKV_nil, mkBreaking, Ne.symm hne]

theorem processOther_spec :
    ∀ (pairs : List (String × Scraped)) (Pend A P : DraftDir),
    (pairs.map (fun x => draftName x.1)).Nodup →
    (∀ x ∈ pairs, countKV (draftName x.1) Pend = 0) →
    processOther pairs ⟨Pend, A, P⟩ = ⟨Pend ++ pairs.map mkOther, A, P⟩ := by
  intro pairs
  induction pairs with
  | nil =>
    intro Pend A P _ _
    simp [processOther]
  | cons x rest ih =>
    intro Pend A P hnodup hfresh
    obtain ⟨t, tw⟩ := x
    rw [processOther]
    have hsave : (save_draft t tw.text "" (detectOr tw.text "general") [] []
        ["@" ++ tw.handle, tw.bucket] ⟨Pend, A, P⟩).2
        = ⟨Pend ++ [mkOther (t, tw)], A, P⟩ := by
      simp only [save_draft, fsWrite]
      rw [setKV_of_fresh _ (hfresh (t, tw) (by simp))]
      rfl
    rw [hsave]
    rw [List.map_cons] at hnodup
    obtain ⟨hhead, htail⟩ := List.nodup_cons.mp hnodup
    rw [ih (Pend ++ [mkOther (t, tw)]) A P htail ?_]
    · simp
    · intro x hx
      rw [countKV_append, hfresh x (by simp [hx])]
      have hne : draftName x.1 ≠ draftName t := by
        intro hcontra
        exact hhead (List.mem_map.mpr ⟨x, hx, hcontra⟩)
      simp [countKV_cons, countKV_nil, mkOther, Ne.symm hne]

theorem map_fst_zip_take {α β : Type} :
    ∀ (l₁ : List α) (l₂ : List β), (l₁.zip l₂).map Prod.fst = l₁.take l₂.length := by
  intro l₁
  induction l₁ with
  | nil => intro l₂; simp
  | cons a l ih =>
    intro l₂
    cases l₂ with
    | nil => simp
    | cons b l₂ => simp [List.zip_cons_cons, ih]

theorem zip_names_nodup {ids : List String} (l : List Scraped)
    (h : (ids.map draftName).Nodup) :
    ((ids.zip l).map (fun x => draftName x.1)).Nodup := by
  have h1 : ((ids.zip l).map (fun x => draftName x.1))
      = ((ids.zip l).map Prod.fst).map draftName := by
    rw [List.map_map]
    rfl
  rw [h1, map_fst_zip_take, List.map_take]
  exact List.Nodup.sublist (List.take_sublist _ _) h

/--
Claim C5: (1) an item older than the bucket's recency cutoff, or flagged
as a retweet, never appears in `scrape_recent_tweets` results (so no draft
is ever created from it, since drafts are created only from capped
prefixes of those results); and (2) running the cycle on an empty store
with fresh per-save timestamps leaves exactly the first 5 breaking items
as records in the approved collection (created, then immediately
auto-approved) and the first 10 commentary/geopolitics items as records
that remain in the pending collection.
-/
theorem ingestion_cycle_spec (idsB idsO : List String)
    (bFiles cFiles gFiles : List (String × List Tweet)) (now : Int)
    (hB : (idsB.map draftName).Nodup) (hO : (idsO.map draftName).Nodup) :
    (∀ (b : String) (files : List (String × List Tweet)) (cutoff : Int) (s : Scraped),
      s ∈ scrape_recent_tweets b files cutoff ↔ ∃ hf ∈ files, ∃ tw ∈ hf.2,
        cutoff < tw.date ∧ tw.isRetweet = false ∧ s = ⟨tw.date, tw.text, hf.1, b⟩) ∧
    generate_drafts_from_buckets idsB idsO bFiles cFiles gFiles now emptyState
      = ⟨(idsO.zip (((scrape_recent_tweets "commentary" cFiles (now - 86400))
            ++ scrape_recent_tweets "geopolitics" gFiles (now - 86400)).take 10)).map mkOther,
         (idsB.zip ((scrape_recent_tweets "breaking" bFiles (now - 612)).take 5)).map mkBreaking,
         []⟩ := by
  constructor
  · intro b files cutoff s
    exact mem_scrape
  · rw [generate_drafts_from_buckets]
    rw [show emptyState = (⟨[], [], []⟩ : DraftState) from rfl]
    rw [processBreaking_spec _ [] []
      (zip_names_nodup _ hB) (fun x _ => countKV_nil _)]
    rw [processOther_spec _ []
      ([] ++ (idsB.zip ((scrape_recent_tweets "breaking" bFiles (now - 612)).take 5)).map
        mkBreaking) []
      (zip_names_nodup _ hO) (fun x _ => countKV_nil _)]
    simp

/-- Breaking-bucket file for the C5 witness: one fresh item, one item
older than the 612-second cutoff, one fresh retweet. -/
def c5BFiles : List (String × List Tweet) :=
  [("middleeast_24",
    [⟨99900, false, "Strikes reported"⟩,
     ⟨90000, false, "Old news"⟩,
     ⟨99950, true, "RT: something"⟩])]

/-- Commentary-bucket file for the C5 witness. -/
def c5CFiles : List (String × List Tweet) :=
  [("realneo101", [⟨50000, false, "Commentary text"⟩])]

/-- Witness for C5 at `now = 100000`: the too-old item is excluded from
the breaking scrape, and the cycle leaves the fresh breaking item
approved and the commentary item pending. -/
theorem ingestion_cycle_witness :
    (⟨90000, "Old news", "middleeast_24", "breaking"⟩ : Scraped)
      ∉ scrape_recent_tweets "breaking" c5BFiles (100000 - 612) ∧
    generate_drafts_from_buckets ["20260101_120000"] ["20260101_120001"]
        c5BFiles c5CFiles [] 100000 emptyState
      = ⟨(["20260101_120001"].zip
            (((scrape_recent_tweets "commentary" c5CFiles (100000 - 86400))
              ++ scrape_recent_tweets "geopolitics" [] (100000 - 86400)).take 10)).map mkOther,
         (["20260101_120000"].zip
            ((scrape_recent_tweets "breaking" c5BFiles (100000 - 612)).take 5)).map mkBreaking,
         []⟩ := by
  have h := ingestion_cycle_spec ["20260101_120000"] ["20260101_120001"]
    c5BFiles c5CFiles [] 100000 (by decide) (by decide)
  constructor
  · intro hmem
    rw [h.1 "breaking" c5BFiles (100000 - 612)
      ⟨90000, "Old news", "middleeast_24", "breaking"⟩] at hmem
    exact absurd hmem (by decide)
  · exact h.2

end Faytuks
